import Mathlib

/-!
Verification of the DEFI-RADAR dashboard generator (`generate.py`).

The script is embedded shallowly: Python floats become `PyFloat` (NaN or an
exact rational), JSON pool records become `Pool` with optional fields, the
registry entries become `Proto`, and each Python function is translated to a
Lean function of the same name.  Python's stable `list.sort` is modelled by
`List.mergeSort`, which is stable in the same sense.
-/

namespace DefiRadar

/-- A Python float as it appears in the provider's JSON: NaN, or an exact
numeric value modelled as a rational. -/
inductive PyFloat where
  | nan : PyFloat
  | val (q : ℚ) : PyFloat
deriving DecidableEq, Repr

/-- Python truthiness of a float: `0.0` is falsy; every other float, NaN
included, is truthy. -/
def PyFloat.truthy : PyFloat → Bool
  | .nan => false || true
  | .val q => !(q == 0)

/-- Python `<=` between floats: any comparison involving NaN is false. -/
def PyFloat.le : PyFloat → PyFloat → Bool
  | .val a, .val b => a ≤ b
  | _, _ => false

/-- Python `<` between floats: any comparison involving NaN is false. -/
def PyFloat.lt : PyFloat → PyFloat → Bool
  | .val a, .val b => a < b
  | _, _ => false

/-- Division of a Python float by a nonzero integer constant (the unit
thresholds `1e3`, `1e6`, `1e9`), written on the numerator and denominator so
that it evaluates inside the kernel; `divC_val` relates it to `q / c`. -/
def PyFloat.divC : PyFloat → ℤ → PyFloat
  | .nan, _ => .nan
  | .val q, c => .val (Rat.divInt q.num (q.den * c))

/-- The rational behind a Python float, reading NaN as `0`; used only where a
hypothesis rules NaN out. -/
def PyFloat.toQ : PyFloat → ℚ
  | .nan => 0
  | .val q => q

/-- Python truthiness of an optional float: `None` and `0.0` are falsy. -/
def optTruthy : Option PyFloat → Bool
  | none => false
  | some v => v.truthy

/-- Is this optional float a strictly positive number?  (`v > 0` in Python:
false for `None` and for NaN.) -/
def optPos : Option PyFloat → Bool
  | some (.val q) => 0 < q
  | _ => false

/-- `listPrefixOf xs ys`: is `xs` a prefix of `ys`?  (Python uses the built-in
substring search; this is its prefix step.) -/
def listPrefixOf : List Char → List Char → Bool
  | [], _ => true
  | _ :: _, [] => false
  | a :: as, b :: bs => a == b && listPrefixOf as bs

/-- Python's `needle in hay` substring test on strings. -/
def strIn (needle hay : String) : Bool :=
  (List.range (hay.data.length + 1)).any fun i => listPrefixOf needle.data (hay.data.drop i)

/-- A pool record returned by the provider.  Field order:
`project`, `chain`, `symbol`, `apy`, `apyBase`, `apyReward`, `tvlUsd`.
Every field may be absent, as with Python's `dict.get`. -/
structure Pool where
  project : Option String
  chain : Option String
  symbol : Option String
  apy : Option PyFloat
  apyBase : Option PyFloat
  apyReward : Option PyFloat
  tvlUsd : Option PyFloat
deriving DecidableEq, Repr

/-- A registry entry of `PROTOCOLS`.  Field order:
`name`, `icon`, `iconBg`, `chain`, `category`, `risk`, `description`,
`strategy`, `url`, `accent`, `project`, `symbol`, `search_chain`. -/
structure Proto where
  name : String
  icon : String
  iconBg : String
  chain : String
  category : String
  risk : String
  description : String
  strategy : String
  url : String
  accent : String
  project : String
  symbol : String
  search_chain : String
deriving DecidableEq, Repr

/-- The fixed protocol registry of `generate.py` (descriptions abbreviated to
their text with apostrophes written as escapes). -/
def PROTOCOLS : List Proto :=
  [ ⟨"Aave v3", "👻", "#b6509e22", "Ethereum", "Lending", "low",
      "Leader du lending décentralisé. Déposez USDC/USDT et percevez des intérêts sur la plateforme la plus auditée du marché.",
      "USDC supply", "https://app.aave.com", "#b6509e", "aave-v3", "USDC", "Ethereum"⟩,
    ⟨"Morpho", "🦋", "#4287f522", "Ethereum", "Lending", "low",
      "Protocole peer-to-peer optimisant les taux d\x27Aave. Meilleurs rendements pour les déposants USDC/USDT.",
      "USDC Vault", "https://morpho.org", "#4287f5", "morpho", "USDC", "Ethereum"⟩,
    ⟨"Lido", "🌊", "#00a3ff22", "Ethereum", "Staking", "low",
      "Leader du liquid staking ETH. Stakez de l\x27ETH et recevez du stETH utilisable partout dans l\x27écosystème DeFi.",
      "ETH → stETH", "https://lido.fi", "#00a3ff", "lido", "STETH", "Ethereum"⟩,
    ⟨"Curve Finance", "🔵", "#3a65b622", "Ethereum", "Liquidity", "low",
      "Référence des pools stablecoins. Frais de swap minimes et rendements solides sur le 3pool et tricrypto.",
      "3pool", "https://curve.fi", "#3a65b6", "curve-dex", "3CRV", "Ethereum"⟩,
    ⟨"Uniswap v3", "🦄", "#ff007a22", "Ethereum", "Liquidity", "medium",
      "DEX de référence. Les positions concentrées USDC/ETH 0.05% offrent des rendements élevés pour les LPs actifs.",
      "USDC/ETH 0.05%", "https://app.uniswap.org", "#ff007a", "uniswap-v3", "USDC", "Ethereum"⟩,
    ⟨"Pendle Finance", "📐", "#0dc8c822", "Ethereum", "Yield", "medium",
      "Tokenisation innovante du yield. PT pour taux fixe garanti, YT pour maximiser le rendement variable sur actifs porteurs d\x27intérêt.",
      "PT eETH", "https://www.pendle.finance", "#0dc8c8", "pendle", "EETH", "Ethereum"⟩,
    ⟨"Convex Finance", "⚡", "#ff6b0022", "Ethereum", "Yield", "medium",
      "Boost des rendements Curve sans immobiliser de CRV. Maximise les récompenses des pools Curve en empilant les rewards cvxCRV.",
      "cvxCRV staking", "https://www.convexfinance.com", "#ff6b00", "convex-finance", "CVXCRV", "Ethereum"⟩,
    ⟨"Ethena", "🔷", "#00e5ff22", "Ethereum", "CDP", "medium",
      "Stablecoin USDe adossé à des positions delta-neutres. Le sUSDe génère du rendement via le funding rate des marchés perpétuels.",
      "sUSDe staking", "https://www.ethena.fi", "#00e5ff", "ethena", "SUSDE", "Ethereum"⟩,
    ⟨"Kamino", "🌀", "#9945ff22", "Solana", "Yield", "medium",
      "Yield automatisé sur Solana. Liquidités concentrées sur Orca/Raydium avec rebalancing automatique des fourchettes de prix.",
      "USDC-SOL vault", "https://kamino.finance", "#9945ff", "kamino-liquidity", "USDC", "Solana"⟩,
    ⟨"Yearn Finance", "🏦", "#006ae322", "Ethereum", "Yield", "low",
      "Vaults automatisés optimisant en continu les stratégies de rendement. Idéal pour du yield passif sans gestion active.",
      "yvUSDC vault", "https://yearn.fi", "#006ae3", "yearn-finance", "YVUSDC", "Ethereum"⟩ ]

/-- Step-1 filter of `find_best_pool`: the pool's project contains the
descriptor's project id as a case-insensitive substring, and the pool's chain
equals the descriptor's search chain case-insensitively. -/
def matchesProto (proto : Proto) (p : Pool) : Bool :=
  strIn proto.project.toLower (p.project.getD "").toLower &&
    ((p.chain.getD "").toLower == proto.search_chain.toLower)

/-- Step-2 narrowing predicate of `find_best_pool`: the pool's symbol contains
the descriptor's expected symbol as a case-insensitive substring. -/
def symMatch (proto : Proto) (p : Pool) : Bool :=
  strIn proto.symbol.toUpper (p.symbol.getD "").toUpper

/-- The sort key `p.get("tvlUsd") or 0` of `find_best_pool`: an absent or
falsy (zero) TVL becomes `0`. -/
def tvlKey (p : Pool) : PyFloat :=
  match p.tvlUsd with
  | some v => if v.truthy then v else .val 0
  | none => .val 0

/-- `find_best_pool` from `generate.py`: filter by project substring and chain
equality, narrow by symbol when possible, stable-sort descending by
`tvlUsd or 0` (Python's `list.sort(reverse=True)` is stable; `List.mergeSort`
with the flipped comparison models it), and return the first element. -/
def find_best_pool (pools : List Pool) (proto : Proto) : Option Pool :=
  let candidates := pools.filter (matchesProto proto)
  let exact := candidates.filter (symMatch proto)
  let candidates := if exact.isEmpty then candidates else exact
  let sorted := candidates.mergeSort fun a b => PyFloat.le (tvlKey b) (tvlKey a)
  sorted.head?

/-- Round `q * 10 ^ d` to the nearest integer, ties to even — the rounding of
Python's fixed-point float formatting — computed on the numerator and the
denominator with floor division so that it evaluates inside the kernel:
`f = ⌊n / den⌋` and `r = n - f * den ∈ [0, den)` is the fractional part times
the denominator, so `2r` against `den` compares the fraction against `1/2`. -/
def rne10 (d : Nat) (q : ℚ) : ℤ :=
  let n := q.num * ((10 ^ d : ℕ) : ℤ)
  let den := (q.den : ℤ)
  let f := Int.fdiv n den
  let r := n - f * den
  if 2 * r < den then f
  else if den < 2 * r then f + 1
  else if f % 2 = 0 then f else f + 1

/-- The decimal digit string of `n`, with the last `d` digits placed after a
decimal point (padding with zeros so at least one digit precedes the point). -/
def formatFixedNat (d : Nat) (n : Nat) : String :=
  if d = 0 then Nat.repr n
  else
    let ds := (Nat.repr n).data
    let ds := List.replicate (d + 1 - ds.length) '0' ++ ds
    String.mk (ds.take (ds.length - d)) ++ "." ++ String.mk (ds.drop (ds.length - d))

/-- Python's `f"{v:.df}"` fixed-point formatting of a float: `"nan"` for NaN,
otherwise the value rounded to `d` decimal places (ties to even). -/
def pyFormat (d : Nat) : PyFloat → String
  | .nan => "nan"
  | .val q =>
    let n := rne10 d q
    (if n < 0 then "-" else "") ++ formatFixedNat d n.natAbs

/-- `fmt_tvl` from `generate.py`: the placeholder for a falsy value (`None` or
zero), otherwise `$`-prefixed billions with one decimal, else millions, else
thousands without decimals. -/
def fmt_tvl (v : Option PyFloat) : String :=
  if !optTruthy v then "—"
  else
    let w := v.getD (.val 0)
    if (PyFloat.val 1000000000).le w then "$" ++ pyFormat 1 (w.divC 1000000000) ++ "B"
    else if (PyFloat.val 1000000).le w then "$" ++ pyFormat 0 (w.divC 1000000) ++ "M"
    else "$" ++ pyFormat 0 (w.divC 1000) ++ "K"

/-- `fmt_apy` from `generate.py`: the placeholder for `None` or NaN (`v != v`),
otherwise the value with one decimal place and a percent sign. -/
def fmt_apy (v : Option PyFloat) : String :=
  match v with
  | none => "—"
  | some .nan => "—"
  | some w => pyFormat 1 w ++ "%"

/-- The conditional sub-line of a card: rendered only when
`apy_base and apy_reward and apy_base > 0 and apy_reward > 0` holds in Python
(truthiness short-circuits before the numeric comparisons). -/
def sub_line (apy_base apy_reward : Option PyFloat) : String :=
  if optTruthy apy_base && optTruthy apy_reward && optPos apy_base && optPos apy_reward then
    "<span class=\"apy-sub\">Base " ++ pyFormat 1 (apy_base.getD (.val 0))
      ++ "% + Rewards " ++ pyFormat 1 (apy_reward.getD (.val 0)) ++ "%</span>"
  else ""

/-- The `risk_map` lookup of `build_html`, with its `("—", "")` default. -/
def riskLabelCls (risk : String) : String × String :=
  if risk == "low" then ("Faible", "risk-low")
  else if risk == "medium" then ("Modéré", "risk-medium")
  else if risk == "high" then ("Élevé", "risk-high")
  else ("—", "")

/-- The `cat_colors` lookup of `build_html`, with its `"#aaa"` default. -/
def catColor (c : String) : String :=
  if c == "Lending" then "#4287f5"
  else if c == "Liquidity" then "#ff007a"
  else if c == "Staking" then "#00a3ff"
  else if c == "CDP" then "#00e5ff"
  else if c == "Yield" then "#7fff6e"
  else "#aaa"

/-- The literal text of the card template before the APY display. -/
def cardPre (i : Nat) (proto : Proto) : String :=
  "\n        <div class=\"card\" style=\"--card-accent:" ++ proto.accent
    ++ ";animation-delay:" ++ toString (i * 60) ++ "ms\" data-category=\"" ++ proto.category
    ++ "\">\n          <div class=\"card-header\">\n            <div class=\"protocol-info\">\n              <div class=\"protocol-icon\" style=\"background:"
    ++ proto.iconBg ++ "\">" ++ proto.icon
    ++ "</div>\n              <div>\n                <div class=\"protocol-name\">" ++ proto.name
    ++ "</div>\n                <div class=\"protocol-chain\">" ++ proto.chain
    ++ "</div>\n              </div>\n            </div>\n            <span class=\"category-tag\" style=\"color:"
    ++ catColor proto.category ++ ";border-color:" ++ catColor proto.category ++ "44\">"
    ++ proto.category
    ++ "</span>\n          </div>\n          <div class=\"apy-section\">\n            <div class=\"apy-value\">"

/-- The literal text of the card template between the APY display and the TVL
display, around the sub-line and the risk cell. -/
def cardMid (proto : Proto) (sub : String) : String :=
  "</div>\n            <div class=\"apy-meta\">\n              <span class=\"apy-label\">APY / an</span>\n              "
    ++ sub
    ++ "\n            </div>\n          </div>\n          <div class=\"risk-tvl\">\n            <div class=\"mini-stat\">\n              <span class=\"mini-stat-label\">Risque</span>\n              <span class=\"mini-stat-value "
    ++ (riskLabelCls proto.risk).2 ++ "\"><span class=\"risk-dot\"></span>" ++ (riskLabelCls proto.risk).1
    ++ "</span>\n            </div>\n            <div class=\"mini-stat\">\n              <span class=\"mini-stat-label\">TVL</span>\n              <span class=\"mini-stat-value\">"

/-- The literal text of the card template after the TVL display. -/
def cardPost (proto : Proto) : String :=
  "</span>\n            </div>\n          </div>\n          <p class=\"description\">" ++ proto.description
    ++ "</p>\n          <div class=\"card-footer\">\n            <a href=\"" ++ proto.url
    ++ "\" target=\"_blank\" rel=\"noopener\" class=\"visit-btn\">\n              Accéder\n              <svg viewBox=\"0 0 10 10\" fill=\"none\" stroke=\"currentColor\" stroke-width=\"1.5\"><path d=\"M2 8L8 2M5 2h3v3\"/></svg>\n            </a>\n            <span class=\"strategy-tag\">"
    ++ proto.strategy ++ "</span>\n          </div>\n        </div>"

/-- One card of `build_html`: the per-result f-string with its interpolations.
`pool.get(...) if pool else None` becomes `Option.bind`. -/
def cardHtml (i : Nat) (proto : Proto) (pool : Option Pool) : String :=
  let apy := pool.bind Pool.apy
  let tvl := pool.bind Pool.tvlUsd
  let apy_base := pool.bind Pool.apyBase
  let apy_reward := pool.bind Pool.apyReward
  cardPre i proto ++ fmt_apy apy ++ cardMid proto (sub_line apy_base apy_reward)
    ++ fmt_tvl tvl ++ cardPost proto

/-- The card loop of `build_html` (`for i, (proto, pool) in enumerate(results)`),
one card string per result. -/
def build_cards (results : List (Proto × Option Pool)) : List String :=
  results.enum.map fun ip => cardHtml ip.1 ip.2.1 ip.2.2

/-- The APY list of the stats section of `build_html`: one entry per result
whose pool is present with a present `apy` field.  (A pool with no fields at
all is falsy in Python and skipped by `if r[1]`, but its `apy` is then absent
anyway, so `Option.bind` coincides.) -/
def statApys (results : List (Proto × Option Pool)) : List PyFloat :=
  results.filterMap fun r => r.2.bind Pool.apy

/-- Python's `max` over a nonempty list: scan left to right, replacing the
current value whenever a strictly greater one appears. -/
def pymax : List PyFloat → Option PyFloat
  | [] => none
  | x :: xs => some (xs.foldl (fun c y => if c.lt y then y else c) x)

/-- The `max_apy` stat string of `build_html`. -/
def maxApyStr (results : List (Proto × Option Pool)) : String :=
  match pymax (statApys results) with
  | some m => pyFormat 1 m ++ "%"
  | none => "—"

/-- The `median_apy` stat string of `build_html`: the ascending-sorted APY list
indexed at `len // 2`, or the placeholder when empty. -/
def medianApyStr (results : List (Proto × Option Pool)) : String :=
  let s := (statApys results).mergeSort PyFloat.le
  match s.get? (s.length / 2) with
  | some m => pyFormat 1 m ++ "%"
  | none => "—"

/-- The varying pieces of the rendered page.  Field order: `statCount`,
`statMax`, `statMedian`, `cardsHtml`, `dateFr`.  The surrounding constant
markup, styling and filter script of the template are not modelled. -/
structure Page where
  statCount : String
  statMax : String
  statMedian : String
  cardsHtml : String
  dateFr : String
deriving DecidableEq, Repr

/-- Model of `build_html`: the stats bar shows `len(results)`, the max and
median APY strings; the cards section is the concatenation of one card per
result in order. -/
def build_html (results : List (Proto × Option Pool)) (dateFr : String) : Page :=
  ⟨toString results.length, maxApyStr results, medianApyStr results,
    String.join (build_cards results), dateFr⟩

/-- The matching loop of `main`: one `(descriptor, best pool)` pair per
registry entry, in registry order. -/
def computeResults (pools : List Pool) : List (Proto × Option Pool) :=
  PROTOCOLS.map fun proto => (proto, find_best_pool pools proto)

/-- Model of `main` with the fetch outcome passed in explicitly: a fetch
failure (request error, timeout or bad status) propagates as the exception it
raised and nothing further runs; on success the page is built from the matched
results and returned as the content written to the output file. -/
def main_run (fetched : Except String (List Pool)) (dateFr : String) : Except String Page :=
  match fetched with
  | .error e => .error e
  | .ok pools => .ok (build_html (computeResults pools) dateFr)

/-- `find_best_pool` with the Python heap made explicit: the pool collection is
the threaded state; the comprehensions build fresh local lists, the in-place
sort acts on the freshly built `candidates` list only, and the state is
returned unchanged next to the result. -/
def find_best_pool_st (pools : List Pool) (proto : Proto) : Option Pool × List Pool :=
  let candidates := pools.filter (matchesProto proto)
  let exact := candidates.filter (symMatch proto)
  let candidates := if exact.isEmpty then candidates else exact
  let sorted := candidates.mergeSort fun a b => PyFloat.le (tvlKey b) (tvlKey a)
  (sorted.head?, pools)

/-- The matching loop of `main` with the pool collection threaded as state
through the successive `find_best_pool` calls. -/
def matchAllSeq (pools : List Pool) : List (Proto × Option Pool) × List Pool :=
  PROTOCOLS.foldl
    (fun acc proto =>
      let r := find_best_pool_st acc.2 proto
      (acc.1 ++ [(proto, r.1)], r.2))
    ([], pools)

/-! ## Specification-side definitions for the matcher claim -/

/-- Descending comparison by a rational key: `a` may precede `b` when `b`'s key
is at most `a`'s. -/
def descLE {α : Type _} (k : α → ℚ) (a b : α) : Bool := k b ≤ k a

/-- `l.foldl` accumulating the maximum of the keys, starting from `i`. -/
def foldlMax {α : Type _} (k : α → ℚ) (i : ℚ) (l : List α) : ℚ :=
  l.foldl (fun m y => max m (k y)) i

/-- The greatest key among `x :: xs`. -/
def maxKey {α : Type _} (k : α → ℚ) (x : α) (xs : List α) : ℚ :=
  foldlMax k (k x) xs

/-- The claim's selection rule: the element with the greatest key, the earliest
one in the list on ties; `none` on the empty list. -/
def firstMaxBy {α : Type _} (k : α → ℚ) : List α → Option α
  | [] => none
  | x :: xs => ((x :: xs).filter fun y => k y == maxKey k x xs).head?

/-- The TVL of a pool as the claim reads it: the numeric value, or zero when
absent. -/
def qKey (p : Pool) : ℚ :=
  match p.tvlUsd with
  | some (.val q) => q
  | _ => 0

/-- The matcher as the claim describes it: keep pools passing the project and
chain filter, narrow to symbol matches when any exist, then return the
candidate with the greatest TVL (absent read as zero), the earliest on ties. -/
def findBestPoolSpec (pools : List Pool) (proto : Proto) : Option Pool :=
  let cs := pools.filter (matchesProto proto)
  let ex := cs.filter (symMatch proto)
  let narrowed := if ex.isEmpty then cs else ex
  firstMaxBy qKey narrowed

/-! ## Helper lemmas -/

theorem descLE_trans {α : Type _} (k : α → ℚ) :
    ∀ (a b c : α), descLE k a b → descLE k b c → descLE k a c := by
  intro a b c hab hbc
  simp only [descLE, decide_eq_true_eq] at *
  exact le_trans hbc hab

theorem descLE_total {α : Type _} (k : α → ℚ) :
    ∀ (a b : α), descLE k a b || descLE k b a := by
  intro a b
  simp only [descLE, Bool.or_eq_true, decide_eq_true_eq]
  exact le_total (k b) (k a)

theorem mergeSort_congr {α : Type _} {le₁ le₂ : α → α → Bool} (l : List α)
    (h : ∀ a ∈ l, ∀ b ∈ l, le₁ a b = le₂ a b) :
    l.mergeSort le₁ = l.mergeSort le₂ := by
  have hm := List.map_mergeSort (f := id) (l := l) (r := le₁) (s := le₂) ?_
  · simpa using hm
  · intro a ha b hb; simpa using h a ha b hb

theorem le_foldlMax_init {α : Type _} (k : α → ℚ) (l : List α) :
    ∀ i : ℚ, i ≤ foldlMax k i l := by
  induction l with
  | nil => intro i; exact le_refl i
  | cons a t ih =>
    intro i
    calc i ≤ max i (k a) := le_max_left _ _
    _ ≤ foldlMax k (max i (k a)) t := ih _

theorem le_foldlMax_mem {α : Type _} (k : α → ℚ) (l : List α) :
    ∀ i : ℚ, ∀ y ∈ l, k y ≤ foldlMax k i l := by
  induction l with
  | nil => intro i y hy; cases hy
  | cons a t ih =>
    intro i y hy
    rcases List.mem_cons.mp hy with rfl | hy
    · calc k y ≤ max i (k y) := le_max_right _ _
      _ ≤ foldlMax k (max i (k y)) t := le_foldlMax_init k t _
    · exact ih _ y hy

theorem foldlMax_cases {α : Type _} (k : α → ℚ) (l : List α) :
    ∀ i : ℚ, foldlMax k i l = i ∨ ∃ y ∈ l, foldlMax k i l = k y := by
  induction l with
  | nil => intro i; exact Or.inl rfl
  | cons a t ih =>
    intro i
    have hstep : foldlMax k i (a :: t) = foldlMax k (max i (k a)) t := rfl
    rcases ih (max i (k a)) with h | ⟨y, hy, h⟩
    · rcases max_choice i (k a) with hm | hm
      · exact Or.inl (by rw [hstep, h, hm])
      · exact Or.inr ⟨a, List.mem_cons_self _ _, by rw [hstep, h, hm]⟩
    · exact Or.inr ⟨y, List.mem_cons_of_mem _ hy, by rw [hstep, h]⟩

theorem le_maxKey {α : Type _} (k : α → ℚ) (x : α) (xs : List α) :
    ∀ y ∈ x :: xs, k y ≤ maxKey k x xs := by
  intro y hy
  rcases List.mem_cons.mp hy with rfl | hy
  · exact le_foldlMax_init k xs _
  · exact le_foldlMax_mem k xs _ y hy

theorem maxKey_attained {α : Type _} (k : α → ℚ) (x : α) (xs : List α) :
    ∃ y ∈ x :: xs, k y = maxKey k x xs := by
  rcases foldlMax_cases k xs (k x) with h | ⟨y, hy, h⟩
  · exact ⟨x, List.mem_cons_self _ _, h.symm⟩
  · exact ⟨y, List.mem_cons_of_mem _ hy, h.symm⟩

/-- In a descending-sorted list whose keys are bounded by `K`, the elements of
key exactly `K` form a prefix. -/
theorem filter_eq_key_prefix {α : Type _} (k : α → ℚ) (K : ℚ) :
    ∀ (s : List α), s.Pairwise (fun a b => descLE k a b) → (∀ y ∈ s, k y ≤ K) →
      (s.filter fun y => k y == K) <+: s := by
  intro s
  induction s with
  | nil => intro _ _; simp
  | cons a t ih =>
    intro hp hb
    rw [List.pairwise_cons] at hp
    by_cases ha : k a = K
    · rw [List.filter_cons_of_pos (by simpa using ha)]
      obtain ⟨u, hu⟩ := ih hp.2 fun y hy => hb y (List.mem_cons_of_mem _ hy)
      exact ⟨u, by rw [List.cons_append, hu]⟩
    · rw [List.filter_cons_of_neg (by simpa using ha)]
      have hlt : k a < K := lt_of_le_of_ne (hb a (List.mem_cons_self _ _)) ha
      have hnone : ∀ y ∈ t, ¬((k y == K) = true) := by
        intro y hy
        have h1 : k y ≤ k a := by
          have := hp.1 y hy
          simpa [descLE] using this
        simpa using ne_of_lt (lt_of_le_of_lt h1 hlt)
      rw [List.filter_eq_nil_iff.mpr hnone]
      exact List.nil_prefix

/-- Crown lemma for the matcher: the head of the stable descending sort is the
earliest element with the greatest key. -/
theorem head_mergeSort_eq_firstMaxBy {α : Type _} (k : α → ℚ) (l : List α) :
    (l.mergeSort (descLE k)).head? = firstMaxBy k l := by
  match l with
  | [] => simp [firstMaxBy]
  | x :: xs =>
    have hperm : List.Perm ((x :: xs).mergeSort (descLE k)) (x :: xs) := List.mergeSort_perm _ _
    have hsort := List.sorted_mergeSort (descLE_trans k) (descLE_total k) (x :: xs)
    have hbound : ∀ y ∈ (x :: xs).mergeSort (descLE k), k y ≤ maxKey k x xs := by
      intro y hy
      exact le_maxKey k x xs y (hperm.mem_iff.mp hy)
    have hpre := filter_eq_key_prefix k (maxKey k x xs) _ hsort hbound
    have hcpair : ((x :: xs).filter fun y => k y == maxKey k x xs).Pairwise
        (fun a b => descLE k a b) := by
      apply List.pairwise_of_forall_mem_list
      intro a ha b hb
      have ha' := (List.mem_filter.mp ha).2
      have hb' := (List.mem_filter.mp hb).2
      simp only [beq_iff_eq] at ha' hb'
      simp [descLE, ha', hb']
    have hstab := List.sublist_mergeSort (descLE_trans k) (descLE_total k) hcpair
      (List.filter_sublist (x :: xs))
    have hcs : ((x :: xs).filter fun y => k y == maxKey k x xs)
        <+: ((x :: xs).mergeSort (descLE k)) := by
      have hsubf := hstab.filter (fun y => k y == maxKey k x xs)
      rw [List.filter_eq_self.mpr (fun a ha => (List.mem_filter.mp ha).2)] at hsubf
      have hlen : ((x :: xs).filter fun y => k y == maxKey k x xs).length
          = (((x :: xs).mergeSort (descLE k)).filter fun y => k y == maxKey k x xs).length :=
        (List.Perm.length_eq (List.Perm.filter _ hperm)).symm
      rw [hsubf.eq_of_length hlen]
      exact hpre
    have hcne : (x :: xs).filter (fun y => k y == maxKey k x xs) ≠ [] := by
      obtain ⟨y, hy, hyK⟩ := maxKey_attained k x xs
      intro hnil
      have := List.filter_eq_nil_iff.mp hnil y hy
      simp [hyK] at this
    rw [firstMaxBy]
    obtain ⟨u, hu⟩ := hcs
    cases hc : (x :: xs).filter (fun y => k y == maxKey k x xs) with
    | nil => exact absurd hc hcne
    | cons c0 cr =>
      rw [hc] at hu
      rw [← hu]
      simp

/-- The candidate list actually sorted by `find_best_pool`: filtered, then
narrowed by symbol when any symbol match exists. -/
def narrowedOf (pools : List Pool) (proto : Proto) : List Pool :=
  let cs := pools.filter (matchesProto proto)
  let ex := cs.filter (symMatch proto)
  if ex.isEmpty then cs else ex

theorem find_best_pool_eq (pools : List Pool) (proto : Proto) :
    find_best_pool pools proto
      = ((narrowedOf pools proto).mergeSort
          fun a b => PyFloat.le (tvlKey b) (tvlKey a)).head? := rfl

theorem findBestPoolSpec_eq (pools : List Pool) (proto : Proto) :
    findBestPoolSpec pools proto = firstMaxBy qKey (narrowedOf pools proto) := rfl

theorem narrowedOf_sub (pools : List Pool) (proto : Proto) :
    ∀ p ∈ narrowedOf pools proto, p ∈ pools.filter (matchesProto proto) := by
  intro p hp
  unfold narrowedOf at hp
  by_cases h : ((pools.filter (matchesProto proto)).filter (symMatch proto)).isEmpty
  · rw [if_pos h] at hp; exact hp
  · rw [if_neg h] at hp; exact List.mem_of_mem_filter hp

theorem tvlKey_eq_val {p : Pool} (h : p.tvlUsd ≠ some PyFloat.nan) :
    tvlKey p = PyFloat.val (qKey p) := by
  unfold tvlKey qKey
  match hp : p.tvlUsd with
  | none => rfl
  | some .nan => exact absurd hp h
  | some (.val q) =>
    by_cases hq : q = 0
    · simp [PyFloat.truthy, hq]
    · simp [PyFloat.truthy, hq]

/-- C1: with no NaN TVL in the collection, `find_best_pool` computes exactly
the claim's three steps: filter by project substring and chain equality,
narrow by symbol when possible, and return the earliest candidate of greatest
TVL (absent TVL read as zero; ties go to the earliest candidate). -/
theorem matcher_follows_spec (pools : List Pool) (proto : Proto)
    (hnn : ∀ p ∈ pools, p.tvlUsd ≠ some PyFloat.nan) :
    find_best_pool pools proto = findBestPoolSpec pools proto := by
  rw [find_best_pool_eq, findBestPoolSpec_eq]
  have hcong : ((narrowedOf pools proto).mergeSort
        fun a b => PyFloat.le (tvlKey b) (tvlKey a))
      = (narrowedOf pools proto).mergeSort (descLE qKey) := by
    apply mergeSort_congr
    intro a ha b hb
    have hha := hnn a (List.mem_of_mem_filter (narrowedOf_sub pools proto a ha))
    have hhb := hnn b (List.mem_of_mem_filter (narrowedOf_sub pools proto b hb))
    rw [tvlKey_eq_val hhb, tvlKey_eq_val hha]
    rfl
  rw [hcong, head_mergeSort_eq_firstMaxBy]

/-- Witness data: the end-to-end scenario pool of the spec. -/
def samplePool : Pool :=
  ⟨some "aave-v3", some "Ethereum", some "USDC", some (.val 5.5),
    some (.val 3), some (.val 2.5), some (.val 2000000000)⟩

/-- Witness data: a second candidate pool on another chain. -/
def samplePool2 : Pool :=
  ⟨some "aave-v3", some "Polygon", some "USDC", some (.val 7.5),
    none, none, some (.val 4000000000)⟩

/-- Witness data: the Aave descriptor with the matching keys of the registry. -/
def sampleProto : Proto :=
  ⟨"Aave v3", "👻", "#b6509e22", "Ethereum", "Lending", "low", "",
    "USDC supply", "https://app.aave.com", "#b6509e", "aave-v3", "USDC", "Ethereum"⟩

/-- Witness for C1 at a concrete collection. -/
theorem matcher_follows_spec_witness :
    (∀ p ∈ [samplePool, samplePool2], p.tvlUsd ≠ some PyFloat.nan)
      ∧ find_best_pool [samplePool, samplePool2] sampleProto
          = findBestPoolSpec [samplePool, samplePool2] sampleProto :=
  ⟨by decide, matcher_follows_spec [samplePool, samplePool2] sampleProto (by decide)⟩

theorem find_best_pool_mem {pools : List Pool} {proto : Proto} {p : Pool}
    (h : find_best_pool pools proto = some p) :
    p ∈ pools ∧ matchesProto proto p = true := by
  rw [find_best_pool_eq] at h
  obtain ⟨ys, hys⟩ := List.head?_eq_some_iff.mp h
  have hmem : p ∈ (narrowedOf pools proto).mergeSort
      (fun a b => PyFloat.le (tvlKey b) (tvlKey a)) := by
    rw [hys]; exact List.mem_cons_self _ _
  rw [List.mem_mergeSort] at hmem
  have hf := narrowedOf_sub pools proto p hmem
  exact ⟨(List.mem_filter.mp hf).1, (List.mem_filter.mp hf).2⟩

/-- C2: the pipeline yields one `MatchResult` per registry descriptor, in
registry order, never dropping or duplicating one; a present pool belongs to
the fetched collection and satisfies the matching predicate; rendering emits
exactly one card per descriptor, and a pool-less card carries the placeholder
glyph for APY and for TVL. -/
theorem pipeline_invariant (pools : List Pool) :
    (computeResults pools).map Prod.fst = PROTOCOLS
    ∧ (computeResults pools).length = PROTOCOLS.length
    ∧ (∀ r ∈ computeResults pools, ∀ p : Pool, r.2 = some p →
        p ∈ pools ∧ matchesProto r.1 p = true)
    ∧ (build_cards (computeResults pools)).length = PROTOCOLS.length
    ∧ (∀ (i : Nat) (proto : Proto),
        cardHtml i proto none
          = cardPre i proto ++ "—" ++ cardMid proto "" ++ "—" ++ cardPost proto) := by
  refine ⟨?_, ?_, ?_, ?_, ?_⟩
  · unfold computeResults
    have h : ∀ l : List Proto,
        (l.map fun proto => (proto, find_best_pool pools proto)).map Prod.fst = l := by
      intro l
      induction l with
      | nil => rfl
      | cons a t ih => simp only [List.map_cons, ih]
    exact h PROTOCOLS
  · simp [computeResults]
  · intro r hr p hp
    obtain ⟨proto, _, rfl⟩ := List.mem_map.mp hr
    exact find_best_pool_mem hp
  · simp [build_cards, computeResults]
  · intro i proto
    rfl

/-- C8: matching is a pure function of its two inputs; identical inputs give
identical results. -/
theorem matcher_deterministic (pools₁ pools₂ : List Pool) (proto₁ proto₂ : Proto)
    (h₁ : pools₁ = pools₂) (h₂ : proto₁ = proto₂) :
    find_best_pool pools₁ proto₁ = find_best_pool pools₂ proto₂ := by
  rw [h₁, h₂]

/-- Witness for C8 at a concrete collection. -/
theorem matcher_deterministic_witness :
    [samplePool] = [samplePool] ∧ sampleProto = sampleProto
      ∧ find_best_pool [samplePool] sampleProto = find_best_pool [samplePool] sampleProto :=
  ⟨rfl, rfl, matcher_deterministic [samplePool] [samplePool] sampleProto sampleProto rfl rfl⟩

theorem matchAllSeq_foldl :
    ∀ (ps : List Proto) (pools : List Pool) (acc : List (Proto × Option Pool)),
      ps.foldl
        (fun acc proto =>
          let r := find_best_pool_st acc.2 proto
          (acc.1 ++ [(proto, r.1)], r.2))
        (acc, pools)
      = (acc ++ ps.map fun proto => (proto, find_best_pool pools proto), pools) := by
  intro ps
  induction ps with
  | nil => intro pools acc; simp
  | cons p pt ih =>
    intro pools acc
    have hstep : find_best_pool_st pools p = (find_best_pool pools p, pools) := rfl
    simp only [List.foldl_cons, List.map_cons, hstep]
    rw [ih pools (acc ++ [(p, find_best_pool pools p)])]
    simp

/-- C9: the matcher never mutates the pool collection — the threaded state
comes back unchanged, the state-passing matcher agrees with the pure one, and
running the whole registry sequentially through the shared collection equals
matching every descriptor independently against the original collection. -/
theorem matcher_frame (pools : List Pool) (proto : Proto) :
    (find_best_pool_st pools proto).2 = pools
    ∧ (find_best_pool_st pools proto).1 = find_best_pool pools proto
    ∧ matchAllSeq pools = (computeResults pools, pools) := by
  refine ⟨rfl, rfl, ?_⟩
  unfold matchAllSeq computeResults
  have h := matchAllSeq_foldl PROTOCOLS pools []
  simpa using h

/-! ## Formatter lemmas -/

theorem formatFixedNat_one_length (n : Nat) : 3 ≤ (formatFixedNat 1 n).length := by
  have key : ∀ l : List Char, 2 ≤ l.length →
      3 ≤ (String.mk (l.take (l.length - 1)) ++ "." ++ String.mk (l.drop (l.length - 1))).length := by
    intro l hl
    simp only [String.length_append, String.length_mk, List.length_take, List.length_drop]
    have hdot : ("." : String).length = 1 := rfl
    rw [hdot]
    omega
  unfold formatFixedNat
  rw [if_neg one_ne_zero]
  exact key _ (by rw [List.length_append, List.length_replicate]; omega)

theorem pyFormat_one_length (w : PyFloat) : 3 ≤ (pyFormat 1 w).length := by
  match w with
  | .nan => decide
  | .val q =>
    show 3 ≤ ((if rne10 1 q < 0 then "-" else "")
      ++ formatFixedNat 1 (rne10 1 q).natAbs).length
    rw [String.length_append]
    have h := formatFixedNat_one_length (rne10 1 q).natAbs
    omega

theorem truthy_eq_false_iff (w : PyFloat) : w.truthy = false ↔ w = .val 0 := by
  match w with
  | .nan => simp [PyFloat.truthy]
  | .val q =>
    simp only [PyFloat.truthy, Bool.not_eq_false', beq_iff_eq, PyFloat.val.injEq]

theorem divC_val (q : ℚ) (c : ℤ) : (PyFloat.val q).divC c = .val (q / (c : ℚ)) := by
  show PyFloat.val (Rat.divInt q.num (q.den * c)) = .val (q / (c : ℚ))
  rw [Rat.divInt_eq_div]
  push_cast
  rw [← div_div, Rat.num_div_den]

theorem fmt_tvl_truthy_length {w : PyFloat} (ht : w.truthy = true) :
    2 ≤ (fmt_tvl (some w)).length := by
  unfold fmt_tvl
  rw [show optTruthy (some w) = w.truthy from rfl, ht]
  simp only [Bool.not_true, Bool.false_eq_true, if_false]
  have hd : ("$" : String).length = 1 := rfl
  have hB : ("B" : String).length = 1 := rfl
  have hM : ("M" : String).length = 1 := rfl
  have hK : ("K" : String).length = 1 := rfl
  split
  · rw [String.length_append, String.length_append]; omega
  split
  · rw [String.length_append, String.length_append]; omega
  · rw [String.length_append, String.length_append]; omega

/-- C4: the TVL formatter returns the placeholder exactly for an absent or
zero input, and otherwise renders by the largest applicable threshold —
billions with one decimal, else millions, else thousands, `$`-prefixed — with
`999 → "$1K"`, `1.5e6 → "$2M"`, `2.3e9 → "$2.3B"`. -/
theorem tvl_formatter_spec (v : Option PyFloat) :
    (fmt_tvl v = "—" ↔ v = none ∨ v = some (PyFloat.val 0))
    ∧ (∀ q : ℚ, q ≠ 0 → fmt_tvl (some (.val q)) =
        if (1000000000 : ℚ) ≤ q then "$" ++ pyFormat 1 (.val (q / 1000000000)) ++ "B"
        else if (1000000 : ℚ) ≤ q then "$" ++ pyFormat 0 (.val (q / 1000000)) ++ "M"
        else "$" ++ pyFormat 0 (.val (q / 1000)) ++ "K")
    ∧ fmt_tvl (some (.val 999)) = "$1K"
    ∧ fmt_tvl (some (.val 1500000)) = "$2M"
    ∧ fmt_tvl (some (.val 2300000000)) = "$2.3B" := by
  refine ⟨⟨?_, ?_⟩, ?_, by decide, by decide, by decide⟩
  · intro h
    match v with
    | none => exact Or.inl rfl
    | some w =>
      cases ht : w.truthy with
      | false => exact Or.inr (by rw [(truthy_eq_false_iff w).mp ht])
      | true =>
        exfalso
        have h2 := fmt_tvl_truthy_length ht
        rw [h] at h2
        exact absurd h2 (by decide)
  · rintro (rfl | rfl) <;> rfl
  · intro q hq
    have h1 : optTruthy (some (.val q)) = true := by
      simp [optTruthy, PyFloat.truthy, hq]
    unfold fmt_tvl
    rw [h1]
    simp only [Bool.not_true, Bool.false_eq_true, if_false, Option.getD_some]
    simp [PyFloat.le, divC_val]

/-- C5: the APY formatter returns the placeholder exactly for `None` or NaN,
and any numeric value renders as a percentage with one decimal place — with
`12.34 → "12.3%"` and `0 → "0.0%"`. -/
theorem apy_formatter_spec (v : Option PyFloat) :
    (fmt_apy v = "—" ↔ v = none ∨ v = some PyFloat.nan)
    ∧ (∀ q : ℚ, fmt_apy (some (.val q)) = pyFormat 1 (.val q) ++ "%")
    ∧ fmt_apy (some (.val 12.34)) = "12.3%"
    ∧ fmt_apy (some (.val 0)) = "0.0%" := by
  have h1234 : (12.34 : ℚ) = Rat.divInt 617 50 := by
    rw [Rat.divInt_eq_div]; norm_num
  refine ⟨⟨?_, ?_⟩, fun q => rfl, by rw [h1234]; decide, by decide⟩
  · intro h
    match v with
    | none => exact Or.inl rfl
    | some .nan => exact Or.inr rfl
    | some (.val q) =>
      exfalso
      have hl : 4 ≤ (fmt_apy (some (.val q))).length := by
        show 4 ≤ (pyFormat 1 (.val q) ++ "%").length
        rw [String.length_append]
        have h1 := pyFormat_one_length (.val q)
        have h2 : ("%" : String).length = 1 := rfl
        omega
      rw [h] at hl
      exact absurd hl (by decide)
  · rintro (rfl | rfl) <;> rfl

/-- Witness for C4: the thousands branch at 999. -/
theorem tvl_formatter_spec_witness :
    ((999 : ℚ) ≠ 0) ∧ fmt_tvl (some (.val 999)) = "$1K" :=
  ⟨by norm_num, (tvl_formatter_spec (some (.val 999))).2.2.1⟩

/-- Witness for C5: the placeholder at `None`. -/
theorem apy_formatter_spec_witness : fmt_apy none = "—" :=
  (apy_formatter_spec none).1.mpr (Or.inl rfl)

/-- C10: NaN and negative TVL inputs are not mapped to the placeholder — they
fall through both thresholds into the thousands branch. -/
theorem tvl_formatter_nan_negative :
    fmt_tvl (some PyFloat.nan) = "$nanK"
    ∧ fmt_tvl (some (.val (-5000))) = "$-5K"
    ∧ fmt_tvl (some PyFloat.nan) ≠ "—"
    ∧ fmt_tvl (some (.val (-5000))) ≠ "—" := by
  exact ⟨by decide, by decide, by decide, by decide⟩

theorem optPos_iff (v : Option PyFloat) :
    optPos v = true ↔ ∃ q : ℚ, v = some (.val q) ∧ 0 < q := by
  match v with
  | none => simp [optPos]
  | some .nan => simp [optPos]
  | some (.val q) => simp [optPos]

theorem optPos_truthy {v : Option PyFloat} (h : optPos v = true) : optTruthy v = true := by
  obtain ⟨q, rfl, hq⟩ := (optPos_iff v).mp h
  simp [optTruthy, PyFloat.truthy, ne_of_gt hq]

/-- C6: the base-plus-rewards sub-line is emitted exactly when both the base
and the reward APY are present numbers strictly greater than zero; a card with
no pool never shows it. -/
theorem sub_line_spec (b r : Option PyFloat) :
    (sub_line b r ≠ "" ↔
      (∃ q : ℚ, b = some (.val q) ∧ 0 < q) ∧ (∃ q : ℚ, r = some (.val q) ∧ 0 < q))
    ∧ sub_line none none = "" := by
  refine ⟨⟨?_, ?_⟩, rfl⟩
  · intro hne
    by_cases hc : (optTruthy b && optTruthy r && optPos b && optPos r) = true
    · have hb := (Bool.and_eq_true _ _).mp hc
      have hr := (Bool.and_eq_true _ _).mp hb.1
      exact ⟨(optPos_iff b).mp hr.2, (optPos_iff r).mp hb.2⟩
    · exfalso
      apply hne
      unfold sub_line
      rw [if_neg hc]
  · rintro ⟨hb, hr⟩
    have hpb : optPos b = true := (optPos_iff b).mpr hb
    have hpr : optPos r = true := (optPos_iff r).mpr hr
    have hc : (optTruthy b && optTruthy r && optPos b && optPos r) = true := by
      rw [optPos_truthy hpb, optPos_truthy hpr, hpb, hpr]
      rfl
    unfold sub_line
    rw [if_pos hc]
    intro habs
    have hlen := congrArg String.length habs
    rw [String.length_append, String.length_append, String.length_append,
      String.length_append] at hlen
    have hpos : 0 < ("<span class=\"apy-sub\">Base " : String).length := by decide
    have hz : ("" : String).length = 0 := rfl
    omega

/-- Witness for C6: a sub-line shown for positive base and reward APY. -/
theorem sub_line_spec_witness : sub_line (some (.val 3)) (some (.val (5/2))) ≠ "" :=
  (sub_line_spec (some (.val 3)) (some (.val (5/2)))).1.mpr
    ⟨⟨3, rfl, by norm_num⟩, ⟨5/2, rfl, by norm_num⟩⟩

/-- C7: a fetch failure propagates as is; no page is built and nothing is
written — the run's output is exactly the error. -/
theorem fetch_failure_aborts (e dateFr : String) :
    main_run (.error e) dateFr = .error e
    ∧ ∀ pg : Page, main_run (.error e) dateFr ≠ .ok pg := by
  refine ⟨rfl, ?_⟩
  intro pg h
  exact Except.noConfusion h

/-- Witness for C7 at a concrete error. -/
theorem fetch_failure_aborts_witness :
    main_run (.error "HTTPError") "d" = .error "HTTPError" :=
  (fetch_failure_aborts "HTTPError" "d").1

/-- Witness for C2 at a concrete (empty) collection. -/
theorem pipeline_invariant_witness :
    (computeResults []).map Prod.fst = PROTOCOLS :=
  (pipeline_invariant []).1

/-! ## Stats lemmas (C3) -/

/-- Comparison of Python floats through their rational values (agrees with
`PyFloat.le` away from NaN and is total, hence usable for sorting). -/
def leQ (a b : PyFloat) : Bool := a.toQ ≤ b.toQ

theorem leQ_trans : ∀ a b c : PyFloat, leQ a b → leQ b c → leQ a c := by
  intro a b c hab hbc
  simp only [leQ, decide_eq_true_eq] at *
  exact le_trans hab hbc

theorem leQ_total : ∀ a b : PyFloat, leQ a b || leQ b a := by
  intro a b
  simp only [leQ, Bool.or_eq_true, decide_eq_true_eq]
  exact le_total _ _

theorem val_toQ {v : PyFloat} (h : v ≠ .nan) : v = .val v.toQ := by
  match v with
  | .nan => exact absurd rfl h
  | .val q => rfl

theorem pyle_eq_leQ {a b : PyFloat} (ha : a ≠ .nan) (hb : b ≠ .nan) :
    PyFloat.le a b = leQ a b := by
  match a, b with
  | .val x, .val y => rfl
  | .nan, _ => exact absurd rfl ha
  | .val _, .nan => exact absurd rfl hb

theorem pyle_imp_toQ : ∀ {a b : PyFloat}, PyFloat.le a b = true → a.toQ ≤ b.toQ := by
  intro a b h
  match a, b with
  | .val x, .val y => simpa [PyFloat.le, PyFloat.toQ] using h
  | .nan, _ => simp [PyFloat.le] at h
  | .val _, .nan => simp [PyFloat.le] at h

theorem map_toQ_inj : ∀ {l₁ l₂ : List PyFloat},
    (∀ x ∈ l₁, x ≠ PyFloat.nan) → (∀ x ∈ l₂, x ≠ PyFloat.nan) →
    l₁.map PyFloat.toQ = l₂.map PyFloat.toQ → l₁ = l₂ := by
  intro l₁
  induction l₁ with
  | nil =>
    intro l₂ _ _ h
    cases l₂ with
    | nil => rfl
    | cons b t => simp at h
  | cons a t ih =>
    intro l₂ h₁ h₂ h
    cases l₂ with
    | nil => simp at h
    | cons b u =>
      simp only [List.map_cons, List.cons.injEq] at h
      have ha : a = .val a.toQ := val_toQ (h₁ a (List.mem_cons_self _ _))
      have hb : b = .val b.toQ := val_toQ (h₂ b (List.mem_cons_self _ _))
      have hab : a = b := by rw [ha, hb, h.1]
      rw [hab, ih (fun x hx => h₁ x (List.mem_cons_of_mem _ hx))
        (fun x hx => h₂ x (List.mem_cons_of_mem _ hx)) h.2]

/-- A NaN-free ascending-sorted permutation of a NaN-free list is unique. -/
theorem sorted_perm_unique {l s₁ s₂ : List PyFloat}
    (hnn : ∀ x ∈ l, x ≠ PyFloat.nan)
    (hp₁ : List.Perm s₁ l) (hp₂ : List.Perm s₂ l)
    (hs₁ : s₁.Pairwise fun a b => leQ a b) (hs₂ : s₂.Pairwise fun a b => leQ a b) :
    s₁ = s₂ := by
  have hnn₁ : ∀ x ∈ s₁, x ≠ PyFloat.nan := fun x hx => hnn x (hp₁.mem_iff.mp hx)
  have hnn₂ : ∀ x ∈ s₂, x ≠ PyFloat.nan := fun x hx => hnn x (hp₂.mem_iff.mp hx)
  apply map_toQ_inj hnn₁ hnn₂
  have hm₁ : (s₁.map PyFloat.toQ).Sorted (fun a b : ℚ => a ≤ b) :=
    List.Pairwise.map _ (fun _ _ h => of_decide_eq_true h) hs₁
  have hm₂ : (s₂.map PyFloat.toQ).Sorted (fun a b : ℚ => a ≤ b) :=
    List.Pairwise.map _ (fun _ _ h => of_decide_eq_true h) hs₂
  exact List.eq_of_perm_of_sorted ((hp₁.trans hp₂.symm).map PyFloat.toQ) hm₁ hm₂

theorem pyfold_max_mem : ∀ (xs : List PyFloat) (x : PyFloat),
    xs.foldl (fun c y => if c.lt y then y else c) x = x
    ∨ xs.foldl (fun c y => if c.lt y then y else c) x ∈ xs := by
  intro xs
  induction xs with
  | nil => intro x; exact Or.inl rfl
  | cons a t ih =>
    intro x
    have hstep : (a :: t).foldl (fun c y => if c.lt y then y else c) x
        = t.foldl (fun c y => if c.lt y then y else c) (if x.lt a then a else x) := rfl
    rcases ih (if x.lt a then a else x) with h | h
    · rw [hstep, h]
      by_cases hx : x.lt a
      · rw [if_pos hx]; exact Or.inr (List.mem_cons_self _ _)
      · rw [if_neg hx]; exact Or.inl rfl
    · rw [hstep]; exact Or.inr (List.mem_cons_of_mem _ h)

theorem pyfold_max_bound : ∀ (xs : List PyFloat) (x : PyFloat),
    x ≠ PyFloat.nan → (∀ y ∈ xs, y ≠ PyFloat.nan) →
    x.toQ ≤ (xs.foldl (fun c y => if c.lt y then y else c) x).toQ
    ∧ ∀ y ∈ xs, y.toQ ≤ (xs.foldl (fun c y => if c.lt y then y else c) x).toQ := by
  intro xs
  induction xs with
  | nil => intro x _ _; exact ⟨le_refl _, by intro y hy; cases hy⟩
  | cons a t ih =>
    intro x hx hall
    have ha : a ≠ PyFloat.nan := hall a (List.mem_cons_self _ _)
    have ht : ∀ y ∈ t, y ≠ PyFloat.nan := fun y hy => hall y (List.mem_cons_of_mem _ hy)
    have hx' : (if x.lt a then a else x) ≠ PyFloat.nan := by
      by_cases h : x.lt a
      · rw [if_pos h]; exact ha
      · rw [if_neg h]; exact hx
    obtain ⟨h1, h2⟩ := ih (if x.lt a then a else x) hx' ht
    have hstep : (a :: t).foldl (fun c y => if c.lt y then y else c) x
        = t.foldl (fun c y => if c.lt y then y else c) (if x.lt a then a else x) := rfl
    have hxle : x.toQ ≤ (if x.lt a then a else x).toQ := by
      by_cases h : x.lt a
      · rw [if_pos h]
        rw [val_toQ hx, val_toQ ha] at h
        exact le_of_lt (by simpa [PyFloat.lt] using h)
      · rw [if_neg h]
    have hale : a.toQ ≤ (if x.lt a then a else x).toQ := by
      by_cases h : x.lt a
      · rw [if_pos h]
      · rw [if_neg h]
        rw [val_toQ hx, val_toQ ha] at h
        exact le_of_not_lt (by simpa [PyFloat.lt] using h)
    refine ⟨?_, ?_⟩
    · rw [hstep]; exact le_trans hxle h1
    · intro y hy
      rcases List.mem_cons.mp hy with rfl | hy
      · rw [hstep]; exact le_trans hale h1
      · rw [hstep]; exact h2 y hy

/-- C3 counterexample: a single registry entry with no matched pool renders a
protocol count of `"1"`, although zero results have a present APY — the count
stat is not computed over the results with a present APY. -/
theorem stats_count_counterexample :
    (build_html [(sampleProto, none)] "d").statCount = "1"
    ∧ statApys [(sampleProto, none)] = []
    ∧ (build_html [(sampleProto, none)] "d").statCount
        ≠ toString (statApys [(sampleProto, none)]).length := by
  refine ⟨rfl, rfl, by decide⟩

/-- C3 (amended): the protocol count stat is the total number of results,
while the max and median stats are computed over the results with a present
APY — the median is the entry at index `⌊count/2⌋` of the ascending-sorted APY
list (upper median), the max is the greatest APY, and both render as the
placeholder when no APY is present.  NaN APYs are excluded by hypothesis,
since float NaN does not order. -/
theorem stats_spec (results : List (Proto × Option Pool)) (dateFr : String)
    (hnn : ∀ v ∈ statApys results, v ≠ PyFloat.nan)
    (s : List PyFloat) (hsp : List.Perm s (statApys results))
    (hss : s.Pairwise fun a b => PyFloat.le a b) :
    (build_html results dateFr).statCount = toString results.length
    ∧ (statApys results = [] →
        (build_html results dateFr).statMax = "—"
        ∧ (build_html results dateFr).statMedian = "—")
    ∧ (∀ m, s.get? (s.length / 2) = some m →
        (build_html results dateFr).statMedian = pyFormat 1 m ++ "%")
    ∧ (∀ m ∈ statApys results, (∀ y ∈ statApys results, PyFloat.le y m) →
        (build_html results dateFr).statMax = pyFormat 1 m ++ "%") := by
  have hs_eq : s = (statApys results).mergeSort PyFloat.le := by
    have hcong : (statApys results).mergeSort PyFloat.le
        = (statApys results).mergeSort leQ := by
      apply mergeSort_congr
      intro a ha b hb
      exact pyle_eq_leQ (hnn a ha) (hnn b hb)
    have hperm : List.Perm ((statApys results).mergeSort PyFloat.le) (statApys results) :=
      List.mergeSort_perm _ _
    have hsorted : ((statApys results).mergeSort PyFloat.le).Pairwise
        fun a b => leQ a b := by
      rw [hcong]
      exact List.sorted_mergeSort leQ_trans leQ_total _
    have hss' : s.Pairwise fun a b => leQ a b := by
      apply List.Pairwise.imp_of_mem ?_ hss
      intro a b ha hb h
      rw [← pyle_eq_leQ (hnn a (hsp.mem_iff.mp ha)) (hnn b (hsp.mem_iff.mp hb))]
      exact h
    exact sorted_perm_unique hnn hsp hperm hss' hsorted
  have hmax_eq : ∀ r, maxApyStr r = match pymax (statApys r) with
      | some m => pyFormat 1 m ++ "%"
      | none => "—" := fun _ => rfl
  have hmed_eq : ∀ r, medianApyStr r
      = match ((statApys r).mergeSort PyFloat.le).get?
          (((statApys r).mergeSort PyFloat.le).length / 2) with
        | some m => pyFormat 1 m ++ "%"
        | none => "—" := fun _ => rfl
  refine ⟨rfl, ?_, ?_, ?_⟩
  · intro hempty
    constructor
    · show maxApyStr results = "—"
      rw [hmax_eq, hempty]
      rfl
    · show medianApyStr results = "—"
      rw [hmed_eq, hempty]
      simp
  · intro m hm
    show medianApyStr results = pyFormat 1 m ++ "%"
    rw [hmed_eq, ← hs_eq, hm]
  · intro m hmem hbound
    show maxApyStr results = pyFormat 1 m ++ "%"
    rw [hmax_eq]
    match he : statApys results with
    | [] => rw [he] at hmem; cases hmem
    | x :: xs =>
      have hx : x ≠ PyFloat.nan := hnn x (by rw [he]; exact List.mem_cons_self _ _)
      have hxs : ∀ y ∈ xs, y ≠ PyFloat.nan :=
        fun y hy => hnn y (by rw [he]; exact List.mem_cons_of_mem _ hy)
      set M := xs.foldl (fun c y => if c.lt y then y else c) x with hM
      have hMnn : M ≠ PyFloat.nan := by
        rcases pyfold_max_mem xs x with h | h
        · rw [hM, h]; exact hx
        · exact hxs _ (by rw [hM]; exact h)
      have hMmem : M ∈ x :: xs := by
        rcases pyfold_max_mem xs x with h | h
        · rw [hM, h]; exact List.mem_cons_self _ _
        · rw [hM]; exact List.mem_cons_of_mem _ h
      obtain ⟨hb1, hb2⟩ := pyfold_max_bound xs x hx hxs
      have hmnn : m ≠ PyFloat.nan := hnn m hmem
      have hle1 : m.toQ ≤ M.toQ := by
        rw [he] at hmem
        rcases List.mem_cons.mp hmem with rfl | hmm
        · exact hb1
        · exact hb2 m hmm
      have hle2 : M.toQ ≤ m.toQ := by
        have := hbound M (by rw [he]; exact hMmem)
        exact pyle_imp_toQ this
      have hMm : m = M := by
        rw [val_toQ hmnn, val_toQ hMnn, le_antisymm hle1 hle2]
      show pyFormat 1 M ++ "%" = pyFormat 1 m ++ "%"
      rw [hMm]

/-- Witness for the amended C3 at the spec's even-count example: APYs
`[1, 2, 3, 4]` give the upper median `3.0%`. -/
theorem stats_spec_witness :
    (∀ v ∈ statApys
        [(sampleProto, some ⟨none, none, none, some (.val 1), none, none, none⟩),
         (sampleProto, some ⟨none, none, none, some (.val 2), none, none, none⟩),
         (sampleProto, some ⟨none, none, none, some (.val 3), none, none, none⟩),
         (sampleProto, some ⟨none, none, none, some (.val 4), none, none, none⟩)],
      v ≠ PyFloat.nan)
    ∧ (build_html
        [(sampleProto, some ⟨none, none, none, some (.val 1), none, none, none⟩),
         (sampleProto, some ⟨none, none, none, some (.val 2), none, none, none⟩),
         (sampleProto, some ⟨none, none, none, some (.val 3), none, none, none⟩),
         (sampleProto, some ⟨none, none, none, some (.val 4), none, none, none⟩)] "d").statMedian
      = "3.0%" := by
  have hnn : ∀ v ∈ statApys
      [(sampleProto, some ⟨none, none, none, some (.val 1), none, none, none⟩),
       (sampleProto, some ⟨none, none, none, some (.val 2), none, none, none⟩),
       (sampleProto, some ⟨none, none, none, some (.val 3), none, none, none⟩),
       (sampleProto, some ⟨none, none, none, some (.val 4), none, none, none⟩)],
      v ≠ PyFloat.nan := by decide
  have hsp : List.Perm [PyFloat.val 1, PyFloat.val 2, PyFloat.val 3, PyFloat.val 4]
      (statApys
        [(sampleProto, some ⟨none, none, none, some (.val 1), none, none, none⟩),
         (sampleProto, some ⟨none, none, none, some (.val 2), none, none, none⟩),
         (sampleProto, some ⟨none, none, none, some (.val 3), none, none, none⟩),
         (sampleProto, some ⟨none, none, none, some (.val 4), none, none, none⟩)]) := by
    exact List.Perm.refl _
  have hss : ([PyFloat.val 1, PyFloat.val 2, PyFloat.val 3, PyFloat.val 4].Pairwise
      fun a b => PyFloat.le a b) := by decide
  have h := stats_spec _ "d" hnn _ hsp hss
  have hm := h.2.2.1 (PyFloat.val 3) (by decide)
  exact ⟨hnn, by rw [hm]; decide⟩

end DefiRadar
